import Mathlib

/-!
Shallow embedding of `settings.go` (listmonk settings handlers).

The Go file defines a `settings` struct (the configuration document), a read
handler `handleGetSettings` (fetch blob → decode → scrub secrets → respond)
and a write handler `handleUpdateSettings` (bind → re-marshal → validate at
least one enabled SMTP block → persist → either set `needsRestart` under the
app lock or schedule a deferred SIGHUP).

JSON blobs are modelled by an inductive `Json` AST (the canonical encoding is
injective on this AST, so a `Json` value stands for the encoded byte blob).
Go's `encoding/json` decoding of `interface{}` values builds
`map[string]interface{}` maps — duplicate keys collapse (last write wins) and
`json.Marshal` emits map keys in sorted order — which we model by normalising
objects into key-sorted association lists (`GoVal`).
-/

set_option linter.unusedVariables false

/-- JSON document AST; stands for the raw encoded blob. -/
inductive Json where
  | null : Json
  | bool : Bool → Json
  | num : Int → Json
  | str : String → Json
  | arr : List Json → Json
  | obj : List (String × Json) → Json

/-- A decoded Go `interface{}` value: like `Json` but objects have become
maps, kept as key-sorted, duplicate-free association lists (Go's
`json.Marshal` emits map keys sorted, and map insertion de-duplicates with
last-write-wins). -/
inductive GoVal where
  | null : GoVal
  | bool : Bool → GoVal
  | num : Int → GoVal
  | str : String → GoVal
  | arr : List GoVal → GoVal
  | map : List (String × GoVal) → GoVal

/-- Lexicographic order on character lists by code point (UTF-8 byte order on
the encoded strings coincides with code-point order, so this is the order in
which Go's `json.Marshal` emits map keys). -/
def charListLt : List Char → List Char → Bool
  | _, [] => false
  | [], _ :: _ => true
  | a :: as, b :: bs =>
    if a.toNat < b.toNat then true
    else if b.toNat < a.toNat then false
    else charListLt as bs

/-- The key order used when Go serializes a `map[string]...`. -/
def strLt (a b : String) : Bool := charListLt a.data b.data

/-- Insert into a key-sorted association list, replacing an existing binding
(models one Go map assignment `m[k] = v` followed by sorted iteration). -/
def insertKV {α : Type} (k : String) (v : α) : List (String × α) → List (String × α)
  | [] => [(k, v)]
  | (k1, v1) :: rest =>
    if strLt k k1 then (k, v) :: (k1, v1) :: rest
    else if k = k1 then (k, v) :: rest
    else (k1, v1) :: insertKV k v rest

/-- Keys strictly increasing (sorted and duplicate-free). -/
def keysSorted {α : Type} : List (String × α) → Bool
  | [] => true
  | [_] => true
  | (k1, _) :: (k2, v2) :: rest =>
    strLt k1 k2 && keysSorted ((k2, v2) :: rest)

/-- Build a Go map from JSON object entries in order: later duplicate keys
overwrite earlier ones; the result is the sorted association list that
`json.Marshal` would emit. -/
def normPairs {α : Type} (l : List (String × α)) : List (String × α) :=
  l.foldl (fun acc p => insertKV p.1 p.2 acc) []

mutual
/-- Decode a JSON value into a Go `interface{}` value (never fails). -/
def decodeGoVal : Json → GoVal
  | .null => .null
  | .bool b => .bool b
  | .num n => .num n
  | .str s => .str s
  | .arr xs => .arr (decodeGoValList xs)
  | .obj kvs => .map (normPairs (decodeGoValPairs kvs))

def decodeGoValList : List Json → List GoVal
  | [] => []
  | x :: xs => decodeGoVal x :: decodeGoValList xs

def decodeGoValPairs : List (String × Json) → List (String × GoVal)
  | [] => []
  | (k, v) :: rest => (k, decodeGoVal v) :: decodeGoValPairs rest
end

mutual
/-- Re-encode a Go `interface{}` value as JSON (`json.Marshal` on the value). -/
def encodeGoVal : GoVal → Json
  | .null => .null
  | .bool b => .bool b
  | .num n => .num n
  | .str s => .str s
  | .arr xs => .arr (encodeGoValList xs)
  | .map kvs => .obj (encodeGoValPairs kvs)

def encodeGoValList : List GoVal → List Json
  | [] => []
  | x :: xs => encodeGoVal x :: encodeGoValList xs

def encodeGoValPairs : List (String × GoVal) → List (String × Json)
  | [] => []
  | (k, v) :: rest => (k, encodeGoVal v) :: encodeGoValPairs rest
end

mutual
/-- All maps inside the value are key-sorted (the shape every value decoded
from JSON has). -/
def GoVal.norm : GoVal → Bool
  | .null => true
  | .bool _ => true
  | .num _ => true
  | .str _ => true
  | .arr xs => GoVal.normList xs
  | .map kvs => keysSorted kvs && GoVal.normPairs kvs

def GoVal.normList : List GoVal → Bool
  | [] => true
  | x :: xs => x.norm && GoVal.normList xs

def GoVal.normPairs : List (String × GoVal) → Bool
  | [] => true
  | (_, v) :: rest => v.norm && GoVal.normPairs rest
end

/-! ### Order lemmas for the key ordering -/

theorem charListLt_nil_right (l : List Char) : charListLt l [] = false := by
  cases l <;> rfl

theorem charListLt_irrefl : ∀ l, charListLt l l = false := by
  intro l
  induction l with
  | nil => rfl
  | cons a as ih => simp [charListLt, Nat.lt_irrefl, ih]

theorem charListLt_trans :
    ∀ a b c, charListLt a b = true → charListLt b c = true → charListLt a c = true := by
  intro a
  induction a with
  | nil =>
    intro b c hab hbc
    cases c with
    | nil => rw [charListLt_nil_right] at hbc; exact absurd hbc (by simp)
    | cons z zs => rfl
  | cons x xs ih =>
    intro b c hab hbc
    cases b with
    | nil => rw [charListLt_nil_right] at hab; exact absurd hab (by simp)
    | cons y ys =>
      cases c with
      | nil => rw [charListLt_nil_right] at hbc; exact absurd hbc (by simp)
      | cons z zs =>
        simp only [charListLt] at hab hbc ⊢
        rcases Nat.lt_trichotomy x.toNat y.toNat with h1 | h1 | h1 <;>
          rcases Nat.lt_trichotomy y.toNat z.toNat with h2 | h2 | h2
        · simp [Nat.lt_trans h1 h2]
        · simp [h2 ▸ h1]
        · simp [h1, Nat.lt_asymm h2, h2] at hab hbc ⊢
        · simp [h1 ▸ h2]
        · simp [h1, h2, Nat.lt_irrefl] at hab hbc ⊢
          exact ih ys zs hab hbc
        · simp [h1, Nat.lt_asymm h2, h2] at hab hbc ⊢
        · simp [Nat.lt_asymm h1, h1] at hab hbc ⊢
        · simp [Nat.lt_asymm h1, h1] at hab hbc ⊢
        · simp [Nat.lt_asymm h1, h1] at hab hbc ⊢

theorem charListLt_conn :
    ∀ a b, charListLt a b = false → charListLt b a = false → a = b := by
  intro a
  induction a with
  | nil =>
    intro b h1 h2
    cases b with
    | nil => rfl
    | cons y ys => simp [charListLt] at h1
  | cons x xs ih =>
    intro b h1 h2
    cases b with
    | nil => simp [charListLt] at h2
    | cons y ys =>
      simp only [charListLt] at h1 h2
      rcases Nat.lt_trichotomy x.toNat y.toNat with h | h | h
      · simp [h] at h1
      · simp [h, Nat.lt_irrefl] at h1 h2
        have hxy : x = y := Char.ext_iff.mpr (UInt32.ext (by simpa [Char.toNat] using h))
        rw [hxy, ih ys h1 h2]
      · simp [h] at h2

theorem strLt_irrefl (a : String) : strLt a a = false := charListLt_irrefl _

theorem strLt_trans {a b c : String} (h1 : strLt a b = true) (h2 : strLt b c = true) :
    strLt a c = true := charListLt_trans _ _ _ h1 h2

theorem strLt_asymm {a b : String} (h : strLt a b = true) : strLt b a = false := by
  by_contra hne
  have hba : strLt b a = true := by
    cases hab : strLt b a with
    | false => exact absurd hab hne
    | true => rfl
  have := strLt_trans h hba
  rw [strLt_irrefl] at this
  exact absurd this (by simp)

theorem strLt_conn {a b : String} (h1 : strLt a b = false) (h2 : strLt b a = false) :
    a = b := by
  have hd : a.data = b.data := charListLt_conn _ _ h1 h2
  cases a; cases b
  exact congrArg String.mk hd

/-! ### Insertion into sorted association lists -/

theorem mem_insertKV {α : Type} {k : String} {v : α} :
    ∀ {l : List (String × α)} {p : String × α}, p ∈ insertKV k v l → p = (k, v) ∨ p ∈ l := by
  intro l
  induction l with
  | nil => intro p hp; simp [insertKV] at hp; exact Or.inl hp
  | cons q rest ih =>
    intro p hp
    obtain ⟨k1, v1⟩ := q
    simp only [insertKV] at hp
    by_cases hlt : strLt k k1 = true
    · rw [if_pos hlt] at hp
      rcases List.mem_cons.mp hp with h | h
      · exact Or.inl h
      · exact Or.inr h
    · rw [if_neg hlt] at hp
      by_cases heq : k = k1
      · rw [if_pos heq] at hp
        rcases List.mem_cons.mp hp with h | h
        · exact Or.inl h
        · exact Or.inr (List.mem_cons_of_mem _ h)
      · rw [if_neg heq] at hp
        rcases List.mem_cons.mp hp with h | h
        · rw [h]; exact Or.inr (List.mem_cons_self _ _)
        · rcases ih h with h2 | h2
          · exact Or.inl h2
          · exact Or.inr (List.mem_cons_of_mem _ h2)

theorem keysSorted_cons_iff {α : Type} {k1 : String} {v1 : α} {l : List (String × α)} :
    keysSorted ((k1, v1) :: l) = true ↔
      (keysSorted l = true ∧ ∀ p ∈ l, strLt k1 p.1 = true) := by
  induction l generalizing k1 v1 with
  | nil => simp [keysSorted]
  | cons q rest ih =>
    obtain ⟨k2, v2⟩ := q
    constructor
    · intro h
      simp only [keysSorted, Bool.and_eq_true] at h
      obtain ⟨hlt, hsorted⟩ := h
      refine ⟨hsorted, ?_⟩
      intro p hp
      rcases List.mem_cons.mp hp with h | h
      · rw [h]; exact hlt
      · have := (ih.mp hsorted).2 p h
        exact strLt_trans hlt this
    · intro ⟨hsorted, hall⟩
      simp only [keysSorted, Bool.and_eq_true]
      exact ⟨hall (k2, v2) (List.mem_cons_self _ _), hsorted⟩

theorem keysSorted_insertKV {α : Type} {k : String} {v : α} :
    ∀ {l : List (String × α)}, keysSorted l = true → keysSorted (insertKV k v l) = true := by
  intro l
  induction l with
  | nil => intro h; rfl
  | cons q rest ih =>
    intro h
    obtain ⟨k1, v1⟩ := q
    obtain ⟨hrest, hall⟩ := keysSorted_cons_iff.mp h
    simp only [insertKV]
    by_cases hlt : strLt k k1 = true
    · rw [if_pos hlt]
      refine keysSorted_cons_iff.mpr ⟨h, ?_⟩
      intro p hp
      rcases List.mem_cons.mp hp with h2 | h2
      · rw [h2]; exact hlt
      · exact strLt_trans hlt (hall p h2)
    · rw [if_neg hlt]
      by_cases heq : k = k1
      · rw [if_pos heq]
        exact keysSorted_cons_iff.mpr ⟨hrest, fun p hp => heq ▸ hall p hp⟩
      · rw [if_neg heq]
        refine keysSorted_cons_iff.mpr ⟨ih hrest, ?_⟩
        intro p hp
        rcases mem_insertKV hp with h2 | h2
        · rw [h2]
          cases hba : strLt k1 k with
          | true => rfl
          | false =>
            have hne : strLt k k1 = false := by
              cases hx : strLt k k1 with
              | false => rfl
              | true => exact absurd hx hlt
            exact absurd (strLt_conn hne hba) heq
        · exact hall p h2

theorem insertKV_append {α : Type} {k : String} {v : α} :
    ∀ {l : List (String × α)}, (∀ p ∈ l, strLt p.1 k = true) →
      insertKV k v l = l ++ [(k, v)] := by
  intro l
  induction l with
  | nil => intro h; rfl
  | cons q rest ih =>
    intro h
    obtain ⟨k1, v1⟩ := q
    have h1 : strLt k1 k = true := h (k1, v1) (List.mem_cons_self _ _)
    have hlt : ¬ strLt k k1 = true := by
      rw [strLt_asymm h1]; simp
    have heq : ¬ k = k1 := by
      intro he
      rw [he, strLt_irrefl] at h1
      exact absurd h1 (by simp)
    simp only [insertKV, if_neg hlt, if_neg heq]
    rw [ih (fun p hp => h p (List.mem_cons_of_mem _ hp))]
    rfl

theorem keysSorted_append_single {α : Type} {k : String} {v : α} :
    ∀ {l : List (String × α)}, keysSorted l = true → (∀ p ∈ l, strLt p.1 k = true) →
      keysSorted (l ++ [(k, v)]) = true := by
  intro l
  induction l with
  | nil => intro _ _; rfl
  | cons q rest ih =>
    intro hs hall
    obtain ⟨k1, v1⟩ := q
    obtain ⟨hrest, hall1⟩ := keysSorted_cons_iff.mp hs
    show keysSorted ((k1, v1) :: (rest ++ [(k, v)])) = true
    refine keysSorted_cons_iff.mpr ⟨ih hrest (fun p hp => hall p (List.mem_cons_of_mem _ hp)), ?_⟩
    intro p hp
    rcases List.mem_append.mp hp with h2 | h2
    · exact hall1 p h2
    · have : p = (k, v) := by simpa using h2
      rw [this]
      exact hall (k1, v1) (List.mem_cons_self _ _)

theorem foldl_insertKV_sorted_eq {α : Type} :
    ∀ (l acc : List (String × α)), keysSorted acc = true → keysSorted l = true →
      (∀ p ∈ acc, ∀ q ∈ l, strLt p.1 q.1 = true) →
      List.foldl (fun acc p => insertKV p.1 p.2 acc) acc l = acc ++ l := by
  intro l
  induction l with
  | nil => intro acc _ _ _; simp
  | cons q rest ih =>
    intro acc hacc hl hcross
    obtain ⟨k, v⟩ := q
    obtain ⟨hrest, hallk⟩ := keysSorted_cons_iff.mp hl
    have hfirst : ∀ p ∈ acc, strLt p.1 k = true := fun p hp =>
      hcross p hp (k, v) (List.mem_cons_self _ _)
    have hstep : insertKV k v acc = acc ++ [(k, v)] := insertKV_append hfirst
    show List.foldl (fun acc p => insertKV p.1 p.2 acc) (insertKV k v acc) rest
        = acc ++ (k, v) :: rest
    rw [hstep, ih (acc ++ [(k, v)])
      (keysSorted_append_single hacc hfirst) hrest ?_]
    · simp
    · intro p hp q2 hq2
      rcases List.mem_append.mp hp with h2 | h2
      · exact hcross p h2 q2 (List.mem_cons_of_mem _ hq2)
      · have : p = (k, v) := by simpa using h2
        rw [this]
        exact hallk q2 hq2

theorem normPairs_sorted_id {α : Type} {l : List (String × α)}
    (h : keysSorted l = true) : normPairs l = l := by
  unfold normPairs
  rw [foldl_insertKV_sorted_eq l [] rfl h (by intro p hp; simp at hp)]
  simp

theorem keysSorted_foldl_insertKV {α : Type} :
    ∀ (l acc : List (String × α)), keysSorted acc = true →
      keysSorted (List.foldl (fun acc p => insertKV p.1 p.2 acc) acc l) = true := by
  intro l
  induction l with
  | nil => intro acc h; exact h
  | cons q rest ih =>
    intro acc hacc
    exact ih _ (keysSorted_insertKV hacc)

theorem keysSorted_normPairs {α : Type} (l : List (String × α)) :
    keysSorted (normPairs l) = true :=
  keysSorted_foldl_insertKV l [] rfl

theorem foldl_insertKV_pred {α : Type} (P : α → Prop) :
    ∀ (l acc : List (String × α)), (∀ p ∈ acc, P p.2) → (∀ p ∈ l, P p.2) →
      ∀ p ∈ List.foldl (fun acc p => insertKV p.1 p.2 acc) acc l, P p.2 := by
  intro l
  induction l with
  | nil => intro acc hacc _ p hp; exact hacc p hp
  | cons q rest ih =>
    intro acc hacc hl p hp
    refine ih _ ?_ (fun r hr => hl r (List.mem_cons_of_mem _ hr)) p hp
    intro r hr
    rcases mem_insertKV hr with h2 | h2
    · rw [h2]; exact hl q (List.mem_cons_self _ _)
    · exact hacc r h2

theorem normPairs_pred {α : Type} (P : α → Prop) {l : List (String × α)}
    (h : ∀ p ∈ l, P p.2) : ∀ p ∈ normPairs l, P p.2 :=
  foldl_insertKV_pred P l [] (by intro p hp; simp at hp) h

/-! ### Normal form and round-trip for decoded `interface{}` values -/

theorem normList_iff {l : List GoVal} :
    GoVal.normList l = true ↔ ∀ x ∈ l, x.norm = true := by
  induction l with
  | nil => simp [GoVal.normList]
  | cons x xs ih =>
    simp only [GoVal.normList, Bool.and_eq_true, ih]
    constructor
    · intro ⟨h1, h2⟩ y hy
      rcases List.mem_cons.mp hy with h | h
      · rw [h]; exact h1
      · exact h2 y h
    · intro h
      exact ⟨h x (List.mem_cons_self _ _), fun y hy => h y (List.mem_cons_of_mem _ hy)⟩

theorem normPairsVals_iff {l : List (String × GoVal)} :
    GoVal.normPairs l = true ↔ ∀ p ∈ l, p.2.norm = true := by
  induction l with
  | nil => simp [GoVal.normPairs]
  | cons q rest ih =>
    obtain ⟨k, v⟩ := q
    simp only [GoVal.normPairs, Bool.and_eq_true, ih]
    constructor
    · intro ⟨h1, h2⟩ p hp
      rcases List.mem_cons.mp hp with h | h
      · rw [h]; exact h1
      · exact h2 p h
    · intro h
      exact ⟨h (k, v) (List.mem_cons_self _ _), fun p hp => h p (List.mem_cons_of_mem _ hp)⟩

mutual
theorem norm_decodeGoVal : ∀ j : Json, (decodeGoVal j).norm = true
  | .null => rfl
  | .bool b => rfl
  | .num n => rfl
  | .str s => rfl
  | .arr xs => by
    simp only [decodeGoVal, GoVal.norm]
    exact norm_decodeGoValList xs
  | .obj kvs => by
    simp only [decodeGoVal, GoVal.norm, Bool.and_eq_true]
    refine ⟨keysSorted_normPairs _, ?_⟩
    refine normPairsVals_iff.mpr ?_
    exact normPairs_pred (fun v : GoVal => v.norm = true) (norm_decodeGoValPairs kvs)

theorem norm_decodeGoValList : ∀ xs : List Json, GoVal.normList (decodeGoValList xs) = true
  | [] => rfl
  | x :: xs => by
    simp only [decodeGoValList, GoVal.normList, Bool.and_eq_true]
    exact ⟨norm_decodeGoVal x, norm_decodeGoValList xs⟩

theorem norm_decodeGoValPairs :
    ∀ kvs : List (String × Json), ∀ p ∈ decodeGoValPairs kvs, p.2.norm = true
  | [] => by intro p hp; simp [decodeGoValPairs] at hp
  | (k, v) :: rest => by
    intro p hp
    simp only [decodeGoValPairs] at hp
    rcases List.mem_cons.mp hp with h | h
    · rw [h]; exact norm_decodeGoVal v
    · exact norm_decodeGoValPairs rest p h
end

mutual
theorem decode_encode_goVal : ∀ v : GoVal, v.norm = true → decodeGoVal (encodeGoVal v) = v
  | .null, _ => rfl
  | .bool b, _ => rfl
  | .num n, _ => rfl
  | .str s, _ => rfl
  | .arr xs, h => by
    simp only [encodeGoVal, decodeGoVal]
    rw [decode_encode_goValList xs (by simpa [GoVal.norm] using h)]
  | .map kvs, h => by
    simp only [encodeGoVal, decodeGoVal]
    simp only [GoVal.norm, Bool.and_eq_true] at h
    rw [decode_encode_goValPairs kvs h.2, normPairs_sorted_id h.1]

theorem decode_encode_goValList :
    ∀ xs : List GoVal, GoVal.normList xs = true → decodeGoValList (encodeGoValList xs) = xs
  | [], _ => rfl
  | x :: xs, h => by
    simp only [GoVal.normList, Bool.and_eq_true] at h
    simp only [encodeGoValList, decodeGoValList]
    rw [decode_encode_goVal x h.1, decode_encode_goValList xs h.2]

theorem decode_encode_goValPairs :
    ∀ kvs : List (String × GoVal), GoVal.normPairs kvs = true →
      decodeGoValPairs (encodeGoValPairs kvs) = kvs
  | [], _ => rfl
  | (k, v) :: rest, h => by
    simp only [GoVal.normPairs, Bool.and_eq_true] at h
    simp only [encodeGoValPairs, decodeGoValPairs]
    rw [decode_encode_goVal v h.1, decode_encode_goValPairs rest h.2]
end

/-! ### The `settings` document (struct `settings` in settings.go) -/

/-- One SMTP transport block (the anonymous struct element of `settings.SMTP`).
`EmailHeaders` is `[]map[string]string`: `none` is Go's nil slice, and each
element is `none` for a nil map or a key-sorted association list. -/
structure smtpBlock where
  Enabled : Bool
  Host : String
  HelloHostname : String
  Port : Int
  AuthProtocol : String
  Username : String
  Password : String
  EmailHeaders : Option (List (Option (List (String × String))))
  MaxConns : Int
  MaxMsgRetries : Int
  IdleTimeout : String
  WaitTimeout : String
  TLSEnabled : Bool
  TLSSkipVerify : Bool

/-- The typed configuration document (struct `settings`). Slice-typed fields
are `Option` so that Go's nil slice (` → JSON null`) and an empty slice
(` → JSON []`) stay distinct, as they do under `encoding/json`. -/
structure settings where
  AppRootURL : String
  AppLogoURL : String
  AppFaviconURL : String
  AppFromEmail : String
  AppNotifyEmails : Option (List String)
  AppBatchSize : Int
  AppConcurrency : Int
  AppMaxSendErrors : Int
  AppMessageRate : Int
  Messengers : Option (List GoVal)
  PrivacyAllowBlacklist : Bool
  PrivacyAllowExport : Bool
  PrivacyAllowWipe : Bool
  PrivacyExportable : Option (List String)
  SMTP : Option (List smtpBlock)
  UploadProvider : String
  UploadFilesystemUploadPath : String
  UploadFilesystemUploadURI : String
  UploadS3AwsAccessKeyID : String
  UploadS3AwsDefaultRegion : String
  UploadS3AwsSecretAccessKey : String
  UploadS3Bucket : String
  UploadS3BucketDomain : String
  UploadS3BucketPath : String
  UploadS3BucketType : String
  UploadS3Expiry : Int

/-- Zero value of an SMTP block (fresh Go struct). -/
def zeroSMTPBlock : smtpBlock :=
  ⟨false, "", "", 0, "", "", "", none, 0, 0, "", "", false, false⟩

/-- Zero value of the settings struct (fresh `var s settings`). -/
def zeroSettings : settings :=
  ⟨"", "", "", "", none, 0, 0, 0, 0, none, false, false, false, none, none,
   "", "", "", "", "", "", "", "", "", "", 0⟩

/-! ### Decoding (`json.Unmarshal` / `c.Bind` into `settings`)

Go's decoder walks the object entries in order; for a struct field each
occurrence of its key is decoded in turn into the field (so a later duplicate
key overwrites an earlier one), a JSON `null` leaves a scalar field untouched
and resets a slice field to nil, and a type mismatch is an error. -/

/-- All values bound to key `k` in an object, in entry order. -/
def occurrencesOf (k : String) : List (String × Json) → List Json
  | [] => []
  | (k1, v) :: rest => if k1 = k then v :: occurrencesOf k rest else occurrencesOf k rest

/-- Fold the occurrences of a `string`-typed field. -/
def decStrOcc : String → List Json → Except String String
  | cur, [] => .ok cur
  | cur, .null :: rest => decStrOcc cur rest
  | _, .str s :: rest => decStrOcc s rest
  | _, _ :: _ => .error "json: cannot unmarshal value into field of type string"

/-- Fold the occurrences of an `int`-typed field. -/
def decIntOcc : Int → List Json → Except String Int
  | cur, [] => .ok cur
  | cur, .null :: rest => decIntOcc cur rest
  | _, .num n :: rest => decIntOcc n rest
  | _, _ :: _ => .error "json: cannot unmarshal value into field of type int"

/-- Fold the occurrences of a `bool`-typed field. -/
def decBoolOcc : Bool → List Json → Except String Bool
  | cur, [] => .ok cur
  | cur, .null :: rest => decBoolOcc cur rest
  | _, .bool b :: rest => decBoolOcc b rest
  | _, _ :: _ => .error "json: cannot unmarshal value into field of type bool"

/-- Fold the occurrences of a slice-typed field: `null` resets it to nil, an
array re-decodes its elements with `decElems`. -/
def decSliceOcc {β : Type} (decElems : List Json → Except String β) :
    Option β → List Json → Except String (Option β)
  | cur, [] => .ok cur
  | _, .null :: rest => decSliceOcc decElems none rest
  | _, .arr xs :: rest => do decSliceOcc decElems (some (← decElems xs)) rest
  | _, _ :: _ => .error "json: cannot unmarshal value into field of slice type"

/-- Elements of a `[]string` value (`null` element decodes as the zero `""`). -/
def decStrElems : List Json → Except String (List String)
  | [] => .ok []
  | .str s :: rest => do .ok (s :: (← decStrElems rest))
  | .null :: rest => do .ok ("" :: (← decStrElems rest))
  | _ :: _ => .error "json: cannot unmarshal value into element of type string"

/-- Entries of a `map[string]string` value before map normalisation. -/
def decodeStrPairs : List (String × Json) → Except String (List (String × String))
  | [] => .ok []
  | (k, .str s) :: rest => do .ok ((k, s) :: (← decodeStrPairs rest))
  | (k, .null) :: rest => do .ok ((k, "") :: (← decodeStrPairs rest))
  | (_, _) :: _ => .error "json: cannot unmarshal value into map[string]string"

/-- Elements of the `[]map[string]string` field `email_headers`. -/
def decHdrElems : List Json → Except String (List (Option (List (String × String))))
  | [] => .ok []
  | .null :: rest => do .ok (none :: (← decHdrElems rest))
  | .obj kvs :: rest => do .ok (some (normPairs (← decodeStrPairs kvs)) :: (← decHdrElems rest))
  | _ :: _ => .error "json: cannot unmarshal value into map[string]string"

/-- Decode one element of the `smtp` slice (a JSON `null` leaves the zero
struct). -/
def decodeSMTPBlock : Json → Except String smtpBlock
  | .null => .ok zeroSMTPBlock
  | .obj kvs => do
    let enabled ← decBoolOcc false (occurrencesOf "enabled" kvs)
    let host ← decStrOcc "" (occurrencesOf "host" kvs)
    let helloHostname ← decStrOcc "" (occurrencesOf "hello_hostname" kvs)
    let port ← decIntOcc 0 (occurrencesOf "port" kvs)
    let authProtocol ← decStrOcc "" (occurrencesOf "auth_protocol" kvs)
    let username ← decStrOcc "" (occurrencesOf "username" kvs)
    let password ← decStrOcc "" (occurrencesOf "password" kvs)
    let emailHeaders ← decSliceOcc decHdrElems none (occurrencesOf "email_headers" kvs)
    let maxConns ← decIntOcc 0 (occurrencesOf "max_conns" kvs)
    let maxMsgRetries ← decIntOcc 0 (occurrencesOf "max_msg_retries" kvs)
    let idleTimeout ← decStrOcc "" (occurrencesOf "idle_timeout" kvs)
    let waitTimeout ← decStrOcc "" (occurrencesOf "wait_timeout" kvs)
    let tlsEnabled ← decBoolOcc false (occurrencesOf "tls_enabled" kvs)
    let tlsSkipVerify ← decBoolOcc false (occurrencesOf "tls_skip_verify" kvs)
    .ok ⟨enabled, host, helloHostname, port, authProtocol, username, password,
         emailHeaders, maxConns, maxMsgRetries, idleTimeout, waitTimeout,
         tlsEnabled, tlsSkipVerify⟩
  | _ => .error "json: cannot unmarshal value into smtp block"

/-- Elements of the `smtp` slice. -/
def decSMTPElems : List Json → Except String (List smtpBlock)
  | [] => .ok []
  | x :: rest => do .ok ((← decodeSMTPBlock x) :: (← decSMTPElems rest))

/-- `json.Unmarshal` of a body into a fresh `settings` struct (the decode
performed by `c.Bind(&s)` on a JSON request and by `handleGetSettings` on the
stored blob). A top-level `null` leaves the zero struct; any non-object is a
type error; unknown keys are dropped. -/
def decodeSettings : Json → Except String settings
  | .null => .ok zeroSettings
  | .obj kvs => do
    let appRootURL ← decStrOcc "" (occurrencesOf "app.root_url" kvs)
    let appLogoURL ← decStrOcc "" (occurrencesOf "app.logo_url" kvs)
    let appFaviconURL ← decStrOcc "" (occurrencesOf "app.favicon_url" kvs)
    let appFromEmail ← decStrOcc "" (occurrencesOf "app.from_email" kvs)
    let appNotifyEmails ← decSliceOcc decStrElems none (occurrencesOf "app.notify_emails" kvs)
    let appBatchSize ← decIntOcc 0 (occurrencesOf "app.batch_size" kvs)
    let appConcurrency ← decIntOcc 0 (occurrencesOf "app.concurrency" kvs)
    let appMaxSendErrors ← decIntOcc 0 (occurrencesOf "app.max_send_errors" kvs)
    let appMessageRate ← decIntOcc 0 (occurrencesOf "app.message_rate" kvs)
    let messengers ← decSliceOcc (fun xs => .ok (decodeGoValList xs)) none
      (occurrencesOf "messengers" kvs)
    let privacyAllowBlacklist ← decBoolOcc false (occurrencesOf "privacy.allow_blacklist" kvs)
    let privacyAllowExport ← decBoolOcc false (occurrencesOf "privacy.allow_export" kvs)
    let privacyAllowWipe ← decBoolOcc false (occurrencesOf "privacy.allow_wipe" kvs)
    let privacyExportable ← decSliceOcc decStrElems none (occurrencesOf "privacy.exportable" kvs)
    let smtp ← decSliceOcc decSMTPElems none (occurrencesOf "smtp" kvs)
    let uploadProvider ← decStrOcc "" (occurrencesOf "upload.provider" kvs)
    let uploadFilesystemUploadPath ← decStrOcc "" (occurrencesOf "upload.filesystem.upload_path" kvs)
    let uploadFilesystemUploadURI ← decStrOcc "" (occurrencesOf "upload.filesystem.upload_uri" kvs)
    let uploadS3AwsAccessKeyID ← decStrOcc "" (occurrencesOf "upload.s3.aws_access_key_id" kvs)
    let uploadS3AwsDefaultRegion ← decStrOcc "" (occurrencesOf "upload.s3.aws_default_region" kvs)
    let uploadS3AwsSecretAccessKey ← decStrOcc "" (occurrencesOf "upload.s3.aws_secret_access_key" kvs)
    let uploadS3Bucket ← decStrOcc "" (occurrencesOf "upload.s3.bucket" kvs)
    let uploadS3BucketDomain ← decStrOcc "" (occurrencesOf "upload.s3.bucket_domain" kvs)
    let uploadS3BucketPath ← decStrOcc "" (occurrencesOf "upload.s3.bucket_path" kvs)
    let uploadS3BucketType ← decStrOcc "" (occurrencesOf "upload.s3.bucket_type" kvs)
    let uploadS3Expiry ← decIntOcc 0 (occurrencesOf "upload.s3.expiry" kvs)
    .ok ⟨appRootURL, appLogoURL, appFaviconURL, appFromEmail, appNotifyEmails,
         appBatchSize, appConcurrency, appMaxSendErrors, appMessageRate,
         messengers, privacyAllowBlacklist, privacyAllowExport, privacyAllowWipe,
         privacyExportable, smtp, uploadProvider, uploadFilesystemUploadPath,
         uploadFilesystemUploadURI, uploadS3AwsAccessKeyID, uploadS3AwsDefaultRegion,
         uploadS3AwsSecretAccessKey, uploadS3Bucket, uploadS3BucketDomain,
         uploadS3BucketPath, uploadS3BucketType, uploadS3Expiry⟩
  | _ => .error "json: cannot unmarshal value into Go value of type main.settings"

/-! ### Encoding (`json.Marshal` of a `settings` value)

`json.Marshal` emits struct fields in declaration order under their tag
names; a nil slice or nil map marshals as `null`. Marshal of a value that was
itself produced by `json.Unmarshal` cannot fail (every decoded value is
JSON-representable), so the encoder is total. -/

def encodeStrList : Option (List String) → Json
  | none => .null
  | some xs => .arr (xs.map Json.str)

def encodeMessengers : Option (List GoVal) → Json
  | none => .null
  | some xs => .arr (encodeGoValList xs)

def encodeStrPairs (m : List (String × String)) : List (String × Json) :=
  m.map (fun p => (p.1, Json.str p.2))

def encodeHdrElem : Option (List (String × String)) → Json
  | none => .null
  | some m => .obj (encodeStrPairs m)

def encodeHdrs : Option (List (Option (List (String × String)))) → Json
  | none => .null
  | some xs => .arr (xs.map encodeHdrElem)

def encodeSMTPBlock (b : smtpBlock) : Json :=
  .obj [("enabled", .bool b.Enabled),
        ("host", .str b.Host),
        ("hello_hostname", .str b.HelloHostname),
        ("port", .num b.Port),
        ("auth_protocol", .str b.AuthProtocol),
        ("username", .str b.Username),
        ("password", .str b.Password),
        ("email_headers", encodeHdrs b.EmailHeaders),
        ("max_conns", .num b.MaxConns),
        ("max_msg_retries", .num b.MaxMsgRetries),
        ("idle_timeout", .str b.IdleTimeout),
        ("wait_timeout", .str b.WaitTimeout),
        ("tls_enabled", .bool b.TLSEnabled),
        ("tls_skip_verify", .bool b.TLSSkipVerify)]

def encodeSMTPList : Option (List smtpBlock) → Json
  | none => .null
  | some bs => .arr (bs.map encodeSMTPBlock)

/-- `json.Marshal(s)` — the canonical blob the handler persists. -/
def encodeSettings (s : settings) : Json :=
  .obj [("app.root_url", .str s.AppRootURL),
        ("app.logo_url", .str s.AppLogoURL),
        ("app.favicon_url", .str s.AppFaviconURL),
        ("app.from_email", .str s.AppFromEmail),
        ("app.notify_emails", encodeStrList s.AppNotifyEmails),
        ("app.batch_size", .num s.AppBatchSize),
        ("app.concurrency", .num s.AppConcurrency),
        ("app.max_send_errors", .num s.AppMaxSendErrors),
        ("app.message_rate", .num s.AppMessageRate),
        ("messengers", encodeMessengers s.Messengers),
        ("privacy.allow_blacklist", .bool s.PrivacyAllowBlacklist),
        ("privacy.allow_export", .bool s.PrivacyAllowExport),
        ("privacy.allow_wipe", .bool s.PrivacyAllowWipe),
        ("privacy.exportable", encodeStrList s.PrivacyExportable),
        ("smtp", encodeSMTPList s.SMTP),
        ("upload.provider", .str s.UploadProvider),
        ("upload.filesystem.upload_path", .str s.UploadFilesystemUploadPath),
        ("upload.filesystem.upload_uri", .str s.UploadFilesystemUploadURI),
        ("upload.s3.aws_access_key_id", .str s.UploadS3AwsAccessKeyID),
        ("upload.s3.aws_default_region", .str s.UploadS3AwsDefaultRegion),
        ("upload.s3.aws_secret_access_key", .str s.UploadS3AwsSecretAccessKey),
        ("upload.s3.bucket", .str s.UploadS3Bucket),
        ("upload.s3.bucket_domain", .str s.UploadS3BucketDomain),
        ("upload.s3.bucket_path", .str s.UploadS3BucketPath),
        ("upload.s3.bucket_type", .str s.UploadS3BucketType),
        ("upload.s3.expiry", .num s.UploadS3Expiry)]

/-! ### Normal form of decoded documents -/

/-- Normal form of a decoded `[]map[string]string` value. -/
def hdrsNorm : Option (List (Option (List (String × String)))) → Bool
  | none => true
  | some xs => xs.all (fun h => match h with | none => true | some m => keysSorted m)

/-- Every `email_headers` map in the block is key-sorted. -/
def smtpBlockNorm (b : smtpBlock) : Bool := hdrsNorm b.EmailHeaders

/-- Normal form of a decoded `[]interface{}` value. -/
def messNorm : Option (List GoVal) → Bool
  | none => true
  | some xs => GoVal.normList xs

/-- Normal form of a decoded `smtp` slice. -/
def smtpsNorm : Option (List smtpBlock) → Bool
  | none => true
  | some bs => bs.all smtpBlockNorm

/-- Every loosely-typed value in the document is in decoded normal form. -/
def settingsNorm (s : settings) : Bool :=
  messNorm s.Messengers && smtpsNorm s.SMTP

/-! ### Round-trip: decoding a marshalled document gives it back -/

theorem bindE_eq {α β : Type} {e : Except String α} {a : α} (h : e = .ok a)
    (f : α → Except String β) {r : Except String β} (hr : f a = r) : (e >>= f) = r := by
  rw [h]; exact hr

theorem bindE_ok_elim {α β : Type} {e : Except String α} {f : α → Except String β} {b : β}
    (h : (e >>= f) = .ok b) : ∃ a, e = .ok a ∧ f a = .ok b := by
  cases e with
  | ok a => exact ⟨a, rfl, h⟩
  | error msg => exact Except.noConfusion h

theorem decStrElems_map_str : ∀ xs : List String, decStrElems (xs.map Json.str) = .ok xs := by
  intro xs
  induction xs with
  | nil => rfl
  | cons x rest ih => exact bindE_eq ih _ rfl

theorem decodeStrPairs_enc : ∀ m : List (String × String),
    decodeStrPairs (encodeStrPairs m) = .ok m := by
  intro m
  induction m with
  | nil => rfl
  | cons p rest ih =>
    obtain ⟨k, v⟩ := p
    exact bindE_eq ih _ rfl

theorem decHdrElems_enc : ∀ xs : List (Option (List (String × String))),
    xs.all (fun h => match h with | none => true | some m => keysSorted m) = true →
    decHdrElems (xs.map encodeHdrElem) = .ok xs := by
  intro xs
  induction xs with
  | nil => intro _; rfl
  | cons h rest ih =>
    intro hall
    rw [List.all_cons, Bool.and_eq_true] at hall
    cases h with
    | none => exact bindE_eq (ih hall.2) _ rfl
    | some m =>
      refine bindE_eq (decodeStrPairs_enc m) _ ?_
      refine bindE_eq (ih hall.2) _ ?_
      have hs : keysSorted m = true := hall.1
      rw [normPairs_sorted_id hs]

theorem decSliceOcc_enc_strList (cur : Option (List String)) :
    ∀ o : Option (List String), decSliceOcc decStrElems cur [encodeStrList o] = .ok o := by
  intro o
  cases o with
  | none => rfl
  | some xs => exact bindE_eq (decStrElems_map_str xs) _ rfl

theorem decSliceOcc_enc_mess (cur : Option (List GoVal)) :
    ∀ o : Option (List GoVal), messNorm o = true →
      decSliceOcc (fun xs => .ok (decodeGoValList xs)) cur [encodeMessengers o] = .ok o := by
  intro o hnorm
  cases o with
  | none => rfl
  | some xs =>
    refine bindE_eq (e := Except.ok (decodeGoValList (encodeGoValList xs))) ?_ _ rfl
    rw [decode_encode_goValList xs hnorm]

theorem decSliceOcc_enc_hdrs (cur : Option (List (Option (List (String × String))))) :
    ∀ o, hdrsNorm o = true → decSliceOcc decHdrElems cur [encodeHdrs o] = .ok o := by
  intro o hnorm
  cases o with
  | none => rfl
  | some xs => exact bindE_eq (decHdrElems_enc xs hnorm) _ rfl

theorem decodeSMTPBlock_enc (b : smtpBlock) (h : smtpBlockNorm b = true) :
    decodeSMTPBlock (encodeSMTPBlock b) = .ok b := by
  obtain ⟨en, ho, he, po, au, us, pa, hd, mc, mr, it, wt, te, ts⟩ := b
  exact bindE_eq (decSliceOcc_enc_hdrs none hd h) _ rfl

theorem decSMTPElems_enc : ∀ bs : List smtpBlock, bs.all smtpBlockNorm = true →
    decSMTPElems (bs.map encodeSMTPBlock) = .ok bs := by
  intro bs
  induction bs with
  | nil => intro _; rfl
  | cons b rest ih =>
    intro hall
    rw [List.all_cons, Bool.and_eq_true] at hall
    refine bindE_eq (decodeSMTPBlock_enc b hall.1) _ ?_
    exact bindE_eq (ih hall.2) _ rfl

theorem decSliceOcc_enc_smtp (cur : Option (List smtpBlock)) :
    ∀ o, smtpsNorm o = true → decSliceOcc decSMTPElems cur [encodeSMTPList o] = .ok o := by
  intro o hnorm
  cases o with
  | none => rfl
  | some bs => exact bindE_eq (decSMTPElems_enc bs hnorm) _ rfl

/-- Unmarshalling a marshalled document yields the document back (for any
document in decoded normal form — in particular for every document that was
itself produced by `decodeSettings`). -/
theorem decodeSettings_encodeSettings (s : settings) (h : settingsNorm s = true) :
    decodeSettings (encodeSettings s) = .ok s := by
  rw [settingsNorm, Bool.and_eq_true] at h
  obtain ⟨a1, a2, a3, a4, nt, b1, b2, b3, b4, ms, p1, p2, p3, ex, sm,
    u1, u2, u3, u4, u5, u6, u7, u8, u9, u10, u11⟩ := s
  exact bindE_eq (decSliceOcc_enc_strList none nt) _
    (bindE_eq (decSliceOcc_enc_mess none ms h.1) _
      (bindE_eq (decSliceOcc_enc_strList none ex) _
        (bindE_eq (decSliceOcc_enc_smtp none sm h.2) _ rfl)))

/-! ### Every decoded document is in normal form -/

theorem decSliceOcc_norm {β : Type} {d : List Json → Except String β} {P : β → Bool}
    (hd : ∀ xs ys, d xs = .ok ys → P ys = true) :
    ∀ (occs : List Json) (cur : Option β),
      (match cur with | none => true | some v => P v) = true →
      ∀ {o}, decSliceOcc d cur occs = .ok o →
        (match o with | none => true | some v => P v) = true := by
  intro occs
  induction occs with
  | nil =>
    intro cur hcur o h
    injection h with h2
    rw [← h2]
    exact hcur
  | cons x rest ih =>
    intro cur hcur o h
    cases x with
    | null => exact ih none rfl h
    | arr xs =>
      obtain ⟨ys, hys, h2⟩ := bindE_ok_elim h
      exact ih (some ys) (hd xs ys hys) h2
    | bool b => exact Except.noConfusion h
    | num n => exact Except.noConfusion h
    | str s => exact Except.noConfusion h
    | obj kvs => exact Except.noConfusion h

theorem decHdrElems_norm : ∀ (xs : List Json) {o}, decHdrElems xs = .ok o →
    o.all (fun h => match h with | none => true | some m => keysSorted m) = true := by
  intro xs
  induction xs with
  | nil => intro o h; injection h with h2; rw [← h2]; rfl
  | cons x rest ih =>
    intro o h
    cases x with
    | null =>
      obtain ⟨ys, hys, h2⟩ := bindE_ok_elim h
      injection h2 with h3
      rw [← h3, List.all_cons]
      exact ih hys
    | obj kvs =>
      obtain ⟨m, hm, h2⟩ := bindE_ok_elim h
      obtain ⟨ys, hys, h3⟩ := bindE_ok_elim h2
      injection h3 with h4
      rw [← h4, List.all_cons, Bool.and_eq_true]
      exact ⟨keysSorted_normPairs m, ih hys⟩
    | bool b => exact Except.noConfusion h
    | num n => exact Except.noConfusion h
    | str s => exact Except.noConfusion h
    | arr ys => exact Except.noConfusion h

theorem decodeSMTPBlock_norm : ∀ (j : Json) {b}, decodeSMTPBlock j = .ok b →
    smtpBlockNorm b = true := by
  intro j b h
  cases j with
  | null => injection h with h2; rw [← h2]; rfl
  | obj kvs =>
    simp only [decodeSMTPBlock] at h
    obtain ⟨v1, h1, h⟩ := bindE_ok_elim h
    obtain ⟨v2, h2, h⟩ := bindE_ok_elim h
    obtain ⟨v3, h3, h⟩ := bindE_ok_elim h
    obtain ⟨v4, h4, h⟩ := bindE_ok_elim h
    obtain ⟨v5, h5, h⟩ := bindE_ok_elim h
    obtain ⟨v6, h6, h⟩ := bindE_ok_elim h
    obtain ⟨v7, h7, h⟩ := bindE_ok_elim h
    obtain ⟨v8, h8, h⟩ := bindE_ok_elim h
    obtain ⟨v9, h9, h⟩ := bindE_ok_elim h
    obtain ⟨v10, h10, h⟩ := bindE_ok_elim h
    obtain ⟨v11, h11, h⟩ := bindE_ok_elim h
    obtain ⟨v12, h12, h⟩ := bindE_ok_elim h
    obtain ⟨v13, h13, h⟩ := bindE_ok_elim h
    obtain ⟨v14, h14, h⟩ := bindE_ok_elim h
    injection h with h15
    rw [← h15]
    show hdrsNorm v8 = true
    have := decSliceOcc_norm (P := fun xs =>
        xs.all (fun h => match h with | none => true | some m => keysSorted m))
      (fun xs ys hy => decHdrElems_norm xs hy) _ none rfl h8
    cases v8 with
    | none => rfl
    | some v => exact this
  | bool b2 => exact Except.noConfusion h
  | num n => exact Except.noConfusion h
  | str s => exact Except.noConfusion h
  | arr ys => exact Except.noConfusion h

theorem decSMTPElems_norm : ∀ (xs : List Json) {bs}, decSMTPElems xs = .ok bs →
    bs.all smtpBlockNorm = true := by
  intro xs
  induction xs with
  | nil => intro bs h; injection h with h2; rw [← h2]; rfl
  | cons x rest ih =>
    intro bs h
    obtain ⟨b, hb, h2⟩ := bindE_ok_elim h
    obtain ⟨ys, hys, h3⟩ := bindE_ok_elim h2
    injection h3 with h4
    rw [← h4, List.all_cons, Bool.and_eq_true]
    exact ⟨decodeSMTPBlock_norm x hb, ih hys⟩

/-- Every successfully decoded document is in decoded normal form. -/
theorem decodeSettings_norm : ∀ (j : Json) {s}, decodeSettings j = .ok s →
    settingsNorm s = true := by
  intro j s h
  cases j with
  | null => injection h with h2; rw [← h2]; rfl
  | obj kvs =>
    simp only [decodeSettings] at h
    obtain ⟨v1, h1, h⟩ := bindE_ok_elim h
    obtain ⟨v2, h2, h⟩ := bindE_ok_elim h
    obtain ⟨v3, h3, h⟩ := bindE_ok_elim h
    obtain ⟨v4, h4, h⟩ := bindE_ok_elim h
    obtain ⟨v5, h5, h⟩ := bindE_ok_elim h
    obtain ⟨v6, h6, h⟩ := bindE_ok_elim h
    obtain ⟨v7, h7, h⟩ := bindE_ok_elim h
    obtain ⟨v8, h8, h⟩ := bindE_ok_elim h
    obtain ⟨v9, h9, h⟩ := bindE_ok_elim h
    obtain ⟨v10, h10, h⟩ := bindE_ok_elim h
    obtain ⟨v11, h11, h⟩ := bindE_ok_elim h
    obtain ⟨v12, h12, h⟩ := bindE_ok_elim h
    obtain ⟨v13, h13, h⟩ := bindE_ok_elim h
    obtain ⟨v14, h14, h⟩ := bindE_ok_elim h
    obtain ⟨v15, h15, h⟩ := bindE_ok_elim h
    obtain ⟨v16, h16, h⟩ := bindE_ok_elim h
    obtain ⟨v17, h17, h⟩ := bindE_ok_elim h
    obtain ⟨v18, h18, h⟩ := bindE_ok_elim h
    obtain ⟨v19, h19, h⟩ := bindE_ok_elim h
    obtain ⟨v20, h20, h⟩ := bindE_ok_elim h
    obtain ⟨v21, h21, h⟩ := bindE_ok_elim h
    obtain ⟨v22, h22, h⟩ := bindE_ok_elim h
    obtain ⟨v23, h23, h⟩ := bindE_ok_elim h
    obtain ⟨v24, h24, h⟩ := bindE_ok_elim h
    obtain ⟨v25, h25, h⟩ := bindE_ok_elim h
    obtain ⟨v26, h26, h⟩ := bindE_ok_elim h
    injection h with h27
    rw [← h27]
    show (messNorm v10 && smtpsNorm v15) = true
    rw [Bool.and_eq_true]
    constructor
    · have := decSliceOcc_norm (P := GoVal.normList)
        (fun xs ys hy => by injection hy with h2; rw [← h2]; exact norm_decodeGoValList xs)
        _ none rfl h10
      cases v10 with
      | none => rfl
      | some v => exact this
    · have := decSliceOcc_norm (P := fun bs => bs.all smtpBlockNorm)
        (fun xs ys hy => decSMTPElems_norm xs hy) _ none rfl h15
      cases v15 with
      | none => rfl
      | some v => exact this
  | bool b => exact Except.noConfusion h
  | num n => exact Except.noConfusion h
  | str s2 => exact Except.noConfusion h
  | arr ys => exact Except.noConfusion h

/-! ### The app state and the two handlers (`handleGetSettings`,
`handleUpdateSettings`) -/

/-- `syscall.SIGHUP` (= 1), the reload signal the handler sends itself. -/
def SIGHUP : Nat := 1

/-- The shared mutable state the handlers touch: the persisted settings blob
(the single row read by `app.queries.GetSettings` and replaced by
`app.queries.UpdateSettings`) and the lock-guarded `app.needsRestart` flag. -/
structure App where
  stored : Json
  needsRestart : Bool

/-- A response sent to the HTTP caller. -/
inductive Response where
  | bindError : Response                 -- `c.Bind` failed and its error was returned as-is
  | httpError : Nat → String → Response  -- `echo.NewHTTPError(status, message)`
  | okSettings : settings → Response     -- `c.JSON(200, okResp{s})` on the read path
  | okNeedsRestart : Bool → Response     -- `c.JSON(200, okResp{struct{NeedsRestart bool}{...}})`
  | okBool : Bool → Response             -- `c.JSON(200, okResp{true})`

/-- The externally observable steps of one `handleUpdateSettings` call, in
program order. -/
inductive Step where
  | bindStep : Step          -- `c.Bind(&s)`
  | marshalStep : Step       -- `json.Marshal(s)`
  | validateStep : Step      -- the enabled-SMTP-block check
  | storeStep : Step         -- `app.queries.UpdateSettings.Exec(b)`
  | probeStep : Step         -- `app.manager.HasRunningCampaigns()`
  | setFlagStep : Step       -- `app.needsRestart = true` under `app.Lock()`
  | scheduleStep : Step      -- spawning the deferred-SIGHUP goroutine
deriving DecidableEq

/-- Everything one `handleUpdateSettings` call does: the response, the app
state after the call, the fire-and-forget signals it scheduled (delay in
milliseconds, signal number), and the trace of attempted steps. -/
structure UpdateRun where
  response : Response
  app : App
  deferred : List (Nat × Nat)
  trace : List Step

def scrubSMTPBlock (b : smtpBlock) : smtpBlock := { b with Password := "" }

/-- The scrub loop of `handleGetSettings` (lines 83–86): blank every SMTP
password and the S3 secret key. -/
def sanitizeForRead (s : settings) : settings :=
  { s with SMTP := s.SMTP.map (List.map scrubSMTPBlock),
           UploadS3AwsSecretAccessKey := "" }

/-- `handleGetSettings`: fetch the stored blob (`fetchOk` says whether the
query succeeded; `pqMsg` is the sanitized backend message used on failure),
decode it, scrub secrets, respond. The app state is never written. -/
def handleGetSettings (a : App) (fetchOk : Bool) (pqMsg : String) : Response :=
  if fetchOk = false then
    .httpError 500 ("Error fetching settings: " ++ pqMsg)
  else
    match decodeSettings a.stored with
    | .error e => .httpError 500 ("Error parsing settings: " ++ e)
    | .ok s => .okSettings (sanitizeForRead s)

/-- The literal reason of the validation failure (line 119). -/
def validationMsg : String := "At least one SMTP block should be enabled"

/-- The validation loop of `handleUpdateSettings` (lines 110–116): is some
SMTP block enabled? (ranging over a nil slice visits nothing). -/
def hasEnabledSMTP (s : settings) : Bool :=
  (s.SMTP.getD []).any (fun b => b.Enabled)

/-- `handleUpdateSettings`: bind the body, re-marshal it (the sanitizing
round-trip — since every bound value is JSON-representable, `json.Marshal`
cannot fail here and its error branch is dead), check that some SMTP block is
enabled, persist, then either set the restart flag (campaigns running) or
schedule a deferred SIGHUP to self after 500 ms. `storeOk` says whether
`UpdateSettings.Exec` succeeded and `hasRunning` is the
`app.manager.HasRunningCampaigns()` probe answer. -/
def handleUpdateSettings (a : App) (storeOk hasRunning : Bool) (pqMsg : String)
    (body : Json) : UpdateRun :=
  match decodeSettings body with
  | .error _ => ⟨.bindError, a, [], [.bindStep]⟩
  | .ok s =>
    let b := encodeSettings s
    if hasEnabledSMTP s = false then
      ⟨.httpError 400 validationMsg, a, [], [.bindStep, .marshalStep, .validateStep]⟩
    else if storeOk = false then
      ⟨.httpError 500 ("Error updating settings: " ++ pqMsg), a, [],
        [.bindStep, .marshalStep, .validateStep, .storeStep]⟩
    else if hasRunning then
      ⟨.okNeedsRestart true, ⟨b, true⟩, [],
        [.bindStep, .marshalStep, .validateStep, .storeStep, .probeStep, .setFlagStep]⟩
    else
      ⟨.okBool true, ⟨b, a.needsRestart⟩, [(500, SIGHUP)],
        [.bindStep, .marshalStep, .validateStep, .storeStep, .probeStep, .scheduleStep]⟩

/-- The failure responses of the update operation (bind/parse, validation,
encode, storage — every non-2xx outcome). -/
def Response.isError : Response → Bool
  | .bindError => true
  | .httpError _ _ => true
  | _ => false

/-! ### The operations of this core, iterated -/

/-- One boundary operation with its environment answers. -/
inductive Op where
  | read (fetchOk : Bool) (pqMsg : String) : Op
  | update (body : Json) (storeOk hasRunning : Bool) (pqMsg : String) : Op

/-- State transition of one operation (`handleGetSettings` only reads the
app; `handleUpdateSettings` returns the updated app). -/
def stepOp (a : App) : Op → App
  | .read _ _ => a
  | .update body storeOk hasRunning pqMsg =>
    (handleUpdateSettings a storeOk hasRunning pqMsg body).app

def runOps (a : App) (ops : List Op) : App := ops.foldl stepOp a

/-- Modelled from the spec: "Initialized to false at process start" — the
`App` value built by the startup sequence, which lives outside `settings.go`,
starts with `needsRestart = false`. -/
def initialApp (stored : Json) : App := ⟨stored, false⟩

/-! ### Concrete sample inputs for evaluation -/

/-- Scenario B body: one enabled SMTP block carrying a password. -/
def sampleBody : Json :=
  .obj [("smtp", .arr [.obj [("enabled", .bool true), ("host", .str "mx.example.com"),
        ("password", .str "secret")]])]

/-- The decode of `sampleBody`. -/
def sampleSettings : settings :=
  { zeroSettings with SMTP := some [{ zeroSMTPBlock with
      Enabled := true, Host := "mx.example.com", Password := "secret" }] }


/-! ### Claims -/

/-- C1: for every successful update (decode, validation and persistence all
succeed), if the activity probe reports running campaigns the operation sets
the shared `needsRestart` flag to true, responds with `needs_restart = true`
and schedules no reload signal; if the probe reports no activity it schedules
exactly one reload signal, responds with a plain success and leaves
`needsRestart` untouched. -/
theorem update_reload_decision (a : App) (storeOk hasRunning : Bool) (pqMsg : String)
    (body : Json) (s : settings)
    (hdec : decodeSettings body = .ok s)
    (hval : hasEnabledSMTP s = true)
    (hstore : storeOk = true) :
    (hasRunning = true →
      (handleUpdateSettings a storeOk hasRunning pqMsg body).app.needsRestart = true ∧
      (handleUpdateSettings a storeOk hasRunning pqMsg body).response = .okNeedsRestart true ∧
      (handleUpdateSettings a storeOk hasRunning pqMsg body).deferred = []) ∧
    (hasRunning = false →
      (handleUpdateSettings a storeOk hasRunning pqMsg body).deferred = [(500, SIGHUP)] ∧
      (handleUpdateSettings a storeOk hasRunning pqMsg body).response = .okBool true ∧
      (handleUpdateSettings a storeOk hasRunning pqMsg body).app.needsRestart
        = a.needsRestart) := by
  subst hstore
  refine ⟨?_, ?_⟩ <;> intro hr <;> subst hr <;>
    simp [handleUpdateSettings, hdec, hval]

theorem update_reload_decision_witness :
    (handleUpdateSettings ⟨Json.null, false⟩ true true "pq" sampleBody).app.needsRestart = true ∧
    (handleUpdateSettings ⟨Json.null, false⟩ true true "pq" sampleBody).response
      = .okNeedsRestart true ∧
    (handleUpdateSettings ⟨Json.null, false⟩ true true "pq" sampleBody).deferred = [] :=
  (update_reload_decision ⟨Json.null, false⟩ true true "pq" sampleBody
    sampleSettings rfl rfl rfl).1 rfl

/-- C3: the update fails with the validation error exactly when the decoded
candidate has no SMTP block with `enabled = true` (a nil or empty list
included), and on that failure the persisted document and flag are unchanged
and nothing is scheduled. -/
theorem update_validation_iff (a : App) (storeOk hasRunning : Bool) (pqMsg : String)
    (body : Json) :
    (((handleUpdateSettings a storeOk hasRunning pqMsg body).response
        = .httpError 400 validationMsg) ↔
      (∃ s, decodeSettings body = .ok s ∧ hasEnabledSMTP s = false)) ∧
    ((handleUpdateSettings a storeOk hasRunning pqMsg body).response
        = .httpError 400 validationMsg →
      (handleUpdateSettings a storeOk hasRunning pqMsg body).app = a ∧
      (handleUpdateSettings a storeOk hasRunning pqMsg body).deferred = []) := by
  cases hdec : decodeSettings body with
  | error e =>
    refine ⟨?_, ?_⟩ <;> simp [handleUpdateSettings, hdec]
  | ok s =>
    by_cases hval : hasEnabledSMTP s = false
    · refine ⟨?_, ?_⟩ <;> simp [handleUpdateSettings, hdec, hval]
    · have hval2 : hasEnabledSMTP s = true := by
        cases h2 : hasEnabledSMTP s with
        | false => exact absurd h2 hval
        | true => rfl
      cases storeOk <;> cases hasRunning <;>
        refine ⟨?_, ?_⟩ <;>
          simp [handleUpdateSettings, hdec, hval2, validationMsg]

theorem update_validation_iff_witness :
    (handleUpdateSettings ⟨Json.null, true⟩ true false "pq" (Json.obj [])).response
      = .httpError 400 validationMsg ∧
    (handleUpdateSettings ⟨Json.null, true⟩ true false "pq" (Json.obj [])).app
      = ⟨Json.null, true⟩ ∧
    (handleUpdateSettings ⟨Json.null, true⟩ true false "pq" (Json.obj [])).deferred = [] := by
  have h := update_validation_iff ⟨Json.null, true⟩ true false "pq" (Json.obj [])
  have hresp := h.1.mpr ⟨zeroSettings, rfl, rfl⟩
  exact ⟨hresp, h.2 hresp⟩

/-- C4: every failed update (parse, validation, encode or storage failure)
returns its error and leaves the stored document and the restart flag
unchanged, scheduling no reload signal. -/
theorem update_failure_no_side_effects (a : App) (storeOk hasRunning : Bool)
    (pqMsg : String) (body : Json)
    (h : (handleUpdateSettings a storeOk hasRunning pqMsg body).response.isError = true) :
    (handleUpdateSettings a storeOk hasRunning pqMsg body).app = a ∧
    (handleUpdateSettings a storeOk hasRunning pqMsg body).deferred = [] := by
  cases hdec : decodeSettings body with
  | error e => simp [handleUpdateSettings, hdec]
  | ok s =>
    by_cases hval : hasEnabledSMTP s = false
    · simp [handleUpdateSettings, hdec, hval]
    · have hval2 : hasEnabledSMTP s = true := by
        cases h2 : hasEnabledSMTP s with
        | false => exact absurd h2 hval
        | true => rfl
      cases storeOk with
      | false => simp [handleUpdateSettings, hdec, hval2]
      | true =>
        cases hasRunning <;>
          simp [handleUpdateSettings, hdec, hval2, Response.isError] at h

theorem update_failure_no_side_effects_witness :
    (handleUpdateSettings ⟨Json.bool true, false⟩ false false "pq" sampleBody).app
      = ⟨Json.bool true, false⟩ ∧
    (handleUpdateSettings ⟨Json.bool true, false⟩ false false "pq" sampleBody).deferred
      = [] :=
  update_failure_no_side_effects ⟨Json.bool true, false⟩ false false "pq" sampleBody rfl

/-- C5 counterexample: a candidate that fails validation (no enabled SMTP
block) has nevertheless gone through the re-encode (`json.Marshal`) step —
the code marshals at line 103, before the validation loop at lines 110–120 —
so "the canonicalize step is never attempted for a candidate that fails
validation" is false. -/
theorem marshal_on_validation_failure_cex :
    (handleUpdateSettings ⟨Json.null, false⟩ true false "pq" (Json.obj [])).response
      = .httpError 400 validationMsg ∧
    Step.marshalStep ∈
      (handleUpdateSettings ⟨Json.null, false⟩ true false "pq" (Json.obj [])).trace := by
  refine ⟨rfl, ?_⟩
  show Step.marshalStep ∈ [Step.bindStep, Step.marshalStep, Step.validateStep]
  simp

/-- C5 (amended): canonicalization runs strictly before validation: every
run that fails validation performed bind, then marshal, then the validation
check — the re-encode step is always attempted once decode succeeds (and, on
a decoded value, it cannot fail, so no EncodeError is ever observed). -/
theorem marshal_precedes_validate (a : App) (storeOk hasRunning : Bool) (pqMsg : String)
    (body : Json)
    (h : (handleUpdateSettings a storeOk hasRunning pqMsg body).response
      = .httpError 400 validationMsg) :
    (handleUpdateSettings a storeOk hasRunning pqMsg body).trace
      = [.bindStep, .marshalStep, .validateStep] := by
  cases hdec : decodeSettings body with
  | error e => simp [handleUpdateSettings, hdec] at h
  | ok s =>
    by_cases hval : hasEnabledSMTP s = false
    · simp [handleUpdateSettings, hdec, hval]
    · have hval2 : hasEnabledSMTP s = true := by
        cases h2 : hasEnabledSMTP s with
        | false => exact absurd h2 hval
        | true => rfl
      cases storeOk <;> cases hasRunning <;>
        simp [handleUpdateSettings, hdec, hval2, validationMsg] at h

theorem marshal_precedes_validate_witness :
    (handleUpdateSettings ⟨Json.null, false⟩ true false "pq" (Json.obj [])).trace
      = [.bindStep, .marshalStep, .validateStep] :=
  marshal_precedes_validate ⟨Json.null, false⟩ true false "pq" (Json.obj []) rfl

/-- C7: on a successful update with no running campaigns the handler
schedules exactly one deferred self-directed reload signal — SIGHUP after a
fixed 500 ms grace interval, with no retry and no cancellation — and the
success response is produced independently of (not blocked on) the deferred
delivery. -/
theorem scheduleReload_exactly_once (a : App) (storeOk : Bool) (pqMsg : String)
    (body : Json) (s : settings)
    (hdec : decodeSettings body = .ok s)
    (hval : hasEnabledSMTP s = true)
    (hstore : storeOk = true) :
    (handleUpdateSettings a storeOk false pqMsg body).deferred = [(500, SIGHUP)] ∧
    (handleUpdateSettings a storeOk false pqMsg body).response = .okBool true := by
  subst hstore
  simp [handleUpdateSettings, hdec, hval]

theorem scheduleReload_exactly_once_witness :
    (handleUpdateSettings ⟨Json.null, false⟩ true false "pq" sampleBody).deferred
      = [(500, SIGHUP)] ∧
    (handleUpdateSettings ⟨Json.null, false⟩ true false "pq" sampleBody).response
      = .okBool true :=
  scheduleReload_exactly_once ⟨Json.null, false⟩ true "pq" sampleBody sampleSettings
    rfl rfl rfl

/-- C9 counterexample: a run that fails validation carries the reason
string "At least one SMTP block should be enabled", which is not the string
"at least one SMTP block must be enabled" the claim requires verbatim. -/
theorem validation_reason_cex :
    (handleUpdateSettings ⟨Json.null, false⟩ true false "pq" (Json.obj [])).response
      = .httpError 400 "At least one SMTP block should be enabled" ∧
    ("At least one SMTP block should be enabled" : String)
      ≠ "at least one SMTP block must be enabled" :=
  ⟨rfl, by decide⟩

/-- C9 (amended): whenever the update fails validation, the client-error
response carries verbatim the reason string
"At least one SMTP block should be enabled". -/
theorem validation_reason_verbatim (a : App) (storeOk hasRunning : Bool) (pqMsg : String)
    (body : Json) (s : settings)
    (hdec : decodeSettings body = .ok s)
    (hval : hasEnabledSMTP s = false) :
    (handleUpdateSettings a storeOk hasRunning pqMsg body).response
      = .httpError 400 "At least one SMTP block should be enabled" := by
  simp [handleUpdateSettings, hdec, hval, validationMsg]

theorem validation_reason_verbatim_witness :
    (handleUpdateSettings ⟨Json.null, false⟩ true false "pq" (Json.obj [])).response
      = .httpError 400 "At least one SMTP block should be enabled" :=
  validation_reason_verbatim ⟨Json.null, false⟩ true false "pq" (Json.obj [])
    zeroSettings rfl rfl

/-- Helper for C6: no operation of this core turns the flag off. -/
theorem stepOp_preserves_true (a : App) (op : Op) (h : a.needsRestart = true) :
    (stepOp a op).needsRestart = true := by
  cases op with
  | read fetchOk pqMsg => exact h
  | update body storeOk hasRunning pqMsg =>
    cases hdec : decodeSettings body with
    | error e => simp [stepOp, handleUpdateSettings, hdec, h]
    | ok s =>
      by_cases hval : hasEnabledSMTP s = false
      · simp [stepOp, handleUpdateSettings, hdec, hval, h]
      · have hval2 : hasEnabledSMTP s = true := by
          cases h2 : hasEnabledSMTP s with
          | false => exact absurd h2 hval
          | true => rfl
        cases storeOk <;> cases hasRunning <;>
          simp [stepOp, handleUpdateSettings, hdec, hval2, h]

/-- C6: the `needsRestart` flag is monotone over every sequence of read and
update operations: it starts false at process start, any single operation
either leaves it alone or writes true, and once true it stays true over any
further operations of this core (re-setting it during activity is
idempotent). -/
theorem needsRestart_monotone :
    (∀ stored, (initialApp stored).needsRestart = false) ∧
    (∀ a op, (stepOp a op).needsRestart = a.needsRestart ∨
      (stepOp a op).needsRestart = true) ∧
    (∀ ops a, a.needsRestart = true → (runOps a ops).needsRestart = true) := by
  refine ⟨fun _ => rfl, ?_, ?_⟩
  · intro a op
    cases op with
    | read fetchOk pqMsg => exact Or.inl rfl
    | update body storeOk hasRunning pqMsg =>
      cases hdec : decodeSettings body with
      | error e => exact Or.inl (by simp [stepOp, handleUpdateSettings, hdec])
      | ok s =>
        by_cases hval : hasEnabledSMTP s = false
        · exact Or.inl (by simp [stepOp, handleUpdateSettings, hdec, hval])
        · have hval2 : hasEnabledSMTP s = true := by
            cases h2 : hasEnabledSMTP s with
            | false => exact absurd h2 hval
            | true => rfl
          cases storeOk with
          | false => exact Or.inl (by simp [stepOp, handleUpdateSettings, hdec, hval2])
          | true =>
            cases hasRunning with
            | true => exact Or.inr (by simp [stepOp, handleUpdateSettings, hdec, hval2])
            | false => exact Or.inl (by simp [stepOp, handleUpdateSettings, hdec, hval2])
  · intro ops
    induction ops with
    | nil => intro a h; exact h
    | cons op rest ih =>
      intro a h
      exact ih (stepOp a op) (stepOp_preserves_true a op h)

theorem needsRestart_monotone_witness :
    (runOps ⟨Json.null, true⟩
      [Op.read true "pq", Op.update sampleBody true true "pq"]).needsRestart = true :=
  needsRestart_monotone.2.2 [Op.read true "pq", Op.update sampleBody true true "pq"]
    ⟨Json.null, true⟩ rfl

/-- C10: the blob persisted by a successful update is exactly the re-encoding
of the typed decode of the request body — independent of the previously
stored document, so nothing is merged from it — and the re-encoding of the
zero document (every schema field absent from the request) writes every field
as its zero value: empty strings, 0, false, null lists, and in particular an
empty SMTP password slot and S3 secret key. -/
theorem persisted_blob_reencoding (a : App) (storeOk hasRunning : Bool) (pqMsg : String)
    (body : Json) (s : settings)
    (hdec : decodeSettings body = .ok s)
    (hval : hasEnabledSMTP s = true)
    (hstore : storeOk = true) :
    ((handleUpdateSettings a storeOk hasRunning pqMsg body).app.stored
      = encodeSettings s) ∧
    decodeSettings (Json.obj []) = .ok zeroSettings ∧
    encodeSettings zeroSettings = .obj
      [("app.root_url", .str ""), ("app.logo_url", .str ""), ("app.favicon_url", .str ""),
       ("app.from_email", .str ""), ("app.notify_emails", .null), ("app.batch_size", .num 0),
       ("app.concurrency", .num 0), ("app.max_send_errors", .num 0), ("app.message_rate", .num 0),
       ("messengers", .null), ("privacy.allow_blacklist", .bool false),
       ("privacy.allow_export", .bool false), ("privacy.allow_wipe", .bool false),
       ("privacy.exportable", .null), ("smtp", .null), ("upload.provider", .str ""),
       ("upload.filesystem.upload_path", .str ""), ("upload.filesystem.upload_uri", .str ""),
       ("upload.s3.aws_access_key_id", .str ""), ("upload.s3.aws_default_region", .str ""),
       ("upload.s3.aws_secret_access_key", .str ""), ("upload.s3.bucket", .str ""),
       ("upload.s3.bucket_domain", .str ""), ("upload.s3.bucket_path", .str ""),
       ("upload.s3.bucket_type", .str ""), ("upload.s3.expiry", .num 0)] := by
  subst hstore
  refine ⟨?_, rfl, rfl⟩
  cases hasRunning <;> simp [handleUpdateSettings, hdec, hval]

theorem persisted_blob_reencoding_witness :
    (handleUpdateSettings ⟨Json.bool true, false⟩ true false "pq" sampleBody).app.stored
      = encodeSettings sampleSettings :=
  (persisted_blob_reencoding ⟨Json.bool true, false⟩ true false "pq" sampleBody
    sampleSettings rfl rfl rfl).1

/-! ### C8: canonicalization idempotence -/

/-- The write path's canonicalization pipeline: decode the blob into the
typed document and re-marshal it. -/
def decodeThenCanonicalize (x : Json) : Except String Json :=
  (decodeSettings x).map encodeSettings

/-- C8: canonicalization composed with decode is idempotent — for every
structurally valid input `x` (one whose decode-and-re-encode succeeds,
producing `y`), decoding and re-encoding the canonical blob `y` reproduces
`y` exactly, loosely-typed messenger values and nested SMTP blocks
included. -/
theorem canonicalize_decode_idempotent (x y : Json)
    (h : decodeThenCanonicalize x = .ok y) :
    decodeThenCanonicalize y = .ok y := by
  unfold decodeThenCanonicalize at h ⊢
  cases hdec : decodeSettings x with
  | error e => rw [hdec] at h; exact Except.noConfusion h
  | ok s =>
    rw [hdec] at h
    have hy : y = encodeSettings s := by
      simp only [Except.map] at h
      injection h with h2
      exact h2.symm
    rw [hy, decodeSettings_encodeSettings s (decodeSettings_norm x hdec)]
    rfl

/-- A body exercising the loosely-typed messengers list (unsorted, duplicate
keys, mixed values), a null SMTP block and an unknown key. -/
def c8Body : Json :=
  .obj [("messengers", .arr [.obj [("b", .num 2), ("a", .str "x"), ("b", .null)],
          .num 7, .null]),
        ("smtp", .arr [.null, .obj [("enabled", .bool true)]]),
        ("junk", .bool true)]

def okOrNull (e : Except String Json) : Json :=
  match e with
  | .ok v => v
  | .error _ => .null

def c8Canon : Json := okOrNull (decodeThenCanonicalize c8Body)

theorem canonicalize_decode_idempotent_witness :
    decodeThenCanonicalize c8Canon = .ok c8Canon :=
  canonicalize_decode_idempotent c8Body c8Canon rfl

/-! ### C2: the read path scrubs secrets and changes nothing else -/

def smtpOf (s : settings) : List smtpBlock := s.SMTP.getD []

/-- What C2 asserts about the document `r` returned by the read operation
relative to the decoded stored document `s`: every SMTP password and the S3
secret key are blank, and every other field — top-level fields, and every
non-password field of every SMTP block — is unchanged. -/
def ScrubSpec (s r : settings) : Prop :=
  (∀ b ∈ smtpOf r, b.Password = "") ∧
  r.UploadS3AwsSecretAccessKey = "" ∧
  r.AppRootURL = s.AppRootURL ∧
  r.AppLogoURL = s.AppLogoURL ∧
  r.AppFaviconURL = s.AppFaviconURL ∧
  r.AppFromEmail = s.AppFromEmail ∧
  r.AppNotifyEmails = s.AppNotifyEmails ∧
  r.AppBatchSize = s.AppBatchSize ∧
  r.AppConcurrency = s.AppConcurrency ∧
  r.AppMaxSendErrors = s.AppMaxSendErrors ∧
  r.AppMessageRate = s.AppMessageRate ∧
  r.Messengers = s.Messengers ∧
  r.PrivacyAllowBlacklist = s.PrivacyAllowBlacklist ∧
  r.PrivacyAllowExport = s.PrivacyAllowExport ∧
  r.PrivacyAllowWipe = s.PrivacyAllowWipe ∧
  r.PrivacyExportable = s.PrivacyExportable ∧
  r.UploadProvider = s.UploadProvider ∧
  r.UploadFilesystemUploadPath = s.UploadFilesystemUploadPath ∧
  r.UploadFilesystemUploadURI = s.UploadFilesystemUploadURI ∧
  r.UploadS3AwsAccessKeyID = s.UploadS3AwsAccessKeyID ∧
  r.UploadS3AwsDefaultRegion = s.UploadS3AwsDefaultRegion ∧
  r.UploadS3Bucket = s.UploadS3Bucket ∧
  r.UploadS3BucketDomain = s.UploadS3BucketDomain ∧
  r.UploadS3BucketPath = s.UploadS3BucketPath ∧
  r.UploadS3BucketType = s.UploadS3BucketType ∧
  r.UploadS3Expiry = s.UploadS3Expiry ∧
  r.SMTP.isSome = s.SMTP.isSome ∧
  (smtpOf r).length = (smtpOf s).length ∧
  (∀ i (hi : i < (smtpOf r).length) (hj : i < (smtpOf s).length),
    (smtpOf r)[i].Enabled = (smtpOf s)[i].Enabled ∧
    (smtpOf r)[i].Host = (smtpOf s)[i].Host ∧
    (smtpOf r)[i].HelloHostname = (smtpOf s)[i].HelloHostname ∧
    (smtpOf r)[i].Port = (smtpOf s)[i].Port ∧
    (smtpOf r)[i].AuthProtocol = (smtpOf s)[i].AuthProtocol ∧
    (smtpOf r)[i].Username = (smtpOf s)[i].Username ∧
    (smtpOf r)[i].EmailHeaders = (smtpOf s)[i].EmailHeaders ∧
    (smtpOf r)[i].MaxConns = (smtpOf s)[i].MaxConns ∧
    (smtpOf r)[i].MaxMsgRetries = (smtpOf s)[i].MaxMsgRetries ∧
    (smtpOf r)[i].IdleTimeout = (smtpOf s)[i].IdleTimeout ∧
    (smtpOf r)[i].WaitTimeout = (smtpOf s)[i].WaitTimeout ∧
    (smtpOf r)[i].TLSEnabled = (smtpOf s)[i].TLSEnabled ∧
    (smtpOf r)[i].TLSSkipVerify = (smtpOf s)[i].TLSSkipVerify)

theorem smtpOf_sanitizeForRead (s : settings) :
    smtpOf (sanitizeForRead s) = (smtpOf s).map scrubSMTPBlock := by
  cases hs : s.SMTP <;> simp [smtpOf, sanitizeForRead, hs]

/-- C2: when the stored blob decodes, the read operation responds with the
sanitized document, in which every SMTP password and the object-storage
secret key are empty and every other field equals the decoded stored
document's. -/
theorem read_scrubs_secrets (a : App) (pqMsg : String) (s : settings)
    (hdec : decodeSettings a.stored = .ok s) :
    handleGetSettings a true pqMsg = .okSettings (sanitizeForRead s) ∧
    ScrubSpec s (sanitizeForRead s) := by
  constructor
  · simp [handleGetSettings, hdec]
  · refine ⟨?_, rfl, rfl, rfl, rfl, rfl, rfl, rfl, rfl, rfl, rfl, rfl, rfl, rfl,
      rfl, rfl, rfl, rfl, rfl, rfl, rfl, rfl, rfl, rfl, rfl, rfl, ?_, ?_, ?_⟩
    · intro b hb
      rw [smtpOf_sanitizeForRead] at hb
      obtain ⟨b0, _, hb0⟩ := List.mem_map.mp hb
      rw [← hb0]
      rfl
    · cases hs : s.SMTP <;> simp [sanitizeForRead, hs]
    · rw [smtpOf_sanitizeForRead, List.length_map]
    · intro i hi hj
      have hlen : i < (smtpOf s).length := hj
      refine ⟨?_, ?_, ?_, ?_, ?_, ?_, ?_, ?_, ?_, ?_, ?_, ?_, ?_⟩ <;>
        simp [smtpOf_sanitizeForRead, scrubSMTPBlock]

/-- A stored document with two SMTP passwords and a secret key set. -/
def c2Stored : settings :=
  { zeroSettings with
      AppRootURL := "https://lists.example.com",
      SMTP := some
        [{ zeroSMTPBlock with Enabled := true, Host := "mx1", Password := "p1" },
         { zeroSMTPBlock with Host := "mx2", Password := "p2" }],
      UploadS3AwsSecretAccessKey := "topsecret" }

theorem read_scrubs_secrets_witness :
    handleGetSettings ⟨encodeSettings c2Stored, false⟩ true "pq"
      = .okSettings (sanitizeForRead c2Stored) ∧
    ScrubSpec c2Stored (sanitizeForRead c2Stored) :=
  read_scrubs_secrets ⟨encodeSettings c2Stored, false⟩ "pq" c2Stored rfl
